import Mathlib

/-!
# radar: look-alike domain scanner (`cli.js`)

A shallow embedding of the script's data flow.  JavaScript strings are Lean
`String`s, arrays are `List`s, the value `false` returned by a failed fetch is
`none`, a rejected promise is `Except.error`, and doubles (the similarity
score, the threshold, the random draws) are the rationals they denote, with the
rounding of a product made explicit.  The third-party pieces the script calls
(`tldextract`, the HTTP client, `string-similarity`, `Math.random`, the
engine's Unicode case tables) are parameters of the definitions that use them.
-/

namespace Radar

/-! ## Data model -/

/-- The object literal built at `cli.js:121`. -/
structure Candidate where
  url : String
  parent : String
deriving DecidableEq, Repr

/-- A value that can sit in the arrays handed to `flatten`: a candidate object
or a nested array. -/
inductive JsVal where
  | obj (c : Candidate)
  | arr (items : List JsVal)
deriving Repr

/-- The object literal built at `cli.js:111`; `content` is the outcome of
`rawFetch`, with `none` for the value `false`. -/
structure Snapshot where
  url : String
  content : Option String
deriving DecidableEq, Repr

/-- What the HTTP client hands to its callback: the `err` argument and the
`body` argument (`none` for `undefined`). -/
structure HttpReply where
  err : Option String
  body : Option String
deriving DecidableEq, Repr

/-- The fields of `./config` the script reads. -/
structure Config where
  minTime : Nat
  maxConcurrent : Nat
  similarityThreshold : ℚ

/-- The line written by `console.error` at `cli.js:133`: the candidate url and
the similarity it was reported with. -/
structure Verdict where
  url : String
  similarity : ℚ
deriving DecidableEq

/-! ## `flatten` (`cli.js:11`) -/

mutual
/-- The argument `concat` receives for one element:
`Array.isArray(b) ? flatten(b) : b`, as the list of elements it appends. -/
def flattenItem : JsVal → List JsVal
  | JsVal.arr items => flatten items
  | JsVal.obj c => [JsVal.obj c]
/-- The function `flatten`: the elements of `list` in order, nested arrays
replaced by their own flattening. -/
def flatten : List JsVal → List JsVal
  | [] => []
  | b :: rest => flattenItem b ++ flatten rest
end

/-- The candidate objects among the flattened values, in order; this is what
the callback at `cli.js:128` reads `url` and `parent` from. -/
def objects : List JsVal → List Candidate
  | [] => []
  | JsVal.obj c :: rest => c :: objects rest
  | JsVal.arr _ :: rest => objects rest

/-! ## `shuffle` (`cli.js:13`) -/

/-- The destructuring assignment `[a[i], a[j]] = [a[j], a[i]]`: both reads
happen first, then `a[i]` and `a[j]` are written.  Indices inside the array are
the only ones the loop produces for draws in `[0, 1)`; for those outside the
list is returned as it is. -/
def swap {α : Type} (a : List α) (i j : Nat) : List α :=
  match a[i]?, a[j]? with
  | some ai, some aj => (a.set i aj).set j ai
  | _, _ => a

/-- Rounding a rational to the nearest integer, a tie going to the even
neighbour. -/
def roundHalfEven (q : ℚ) : ℤ :=
  let f := Rat.floor q
  let d := q - f
  if d < 1 / 2 then f
  else if 1 / 2 < d then f + 1
  else if f % 2 = 0 then f else f + 1

/-- The double nearest to the exact value `x`, as the multiplication of two
doubles rounds its exact product: 53 significant bits, ties to even.  The unit
in the last place is `2 ^ (e - 52)` for `2 ^ e ≤ |x| < 2 ^ (e + 1)`.  Exponent
limits are not modelled; the products `shuffle` forms are far from overflow,
and below 1 their floor is 0 whatever the precision. -/
def roundDouble (x : ℚ) : ℚ :=
  if x = 0 then 0
  else
    let ulp := ((2 : ℕ) : ℚ) ^ (Int.log 2 |x| - 52)
    (roundHalfEven (x / ulp) : ℚ) * ulp

/-- The index `Math.floor(Math.random() * (i + 1))` for a draw `r`: the
product is rounded to a double before the floor is taken (`i + 1` is an array
length, exact as a double). -/
def pick (r : ℚ) (i : Nat) : Nat :=
  (Rat.floor (roundDouble (r * ((i : ℚ) + 1)))).toNat

/-- The `for` loop of `shuffle`, entered with the loop variable at `i` when
`k` calls of `Math.random` have been made; `random k` is the value of call
number `k`. -/
def shuffleLoop {α : Type} (random : Nat → ℚ) : Nat → Nat → List α → List α
  | _, 0, a => a
  | k, i + 1, a => shuffleLoop random (k + 1) i (swap a (i + 1) (pick (random k) (i + 1)))

/-- The function `shuffle`: the loop started at `i = a.length - 1`. -/
def shuffle {α : Type} (random : Nat → ℚ) (a : List α) : List α :=
  shuffleLoop random 0 (a.length - 1) a

/-! ## String helpers used by the loaders -/

/-- The method `s.startsWith(c)` for a one-character search string. -/
def startsWith (s : String) (c : Char) : Bool :=
  match s.data with
  | [] => false
  | d :: _ => d == c

/-- Whether every character of the string is an ASCII character. -/
def isAscii (s : String) : Bool :=
  s.data.all (fun c => decide (c.toNat < 128))

/-- The method `toLowerCase`.  On an ASCII string `A` to `Z` become `a` to `z`
and every other character is kept; a string with a character outside ASCII is
converted by `unicodeLower`, which stands for the Unicode case conversion of
the engine. -/
def toLowerCase (unicodeLower : String → String) (s : String) : String :=
  if isAscii s then String.mk (s.data.map Char.toLower) else unicodeLower s

/-- Splitting a character sequence at every occurrence of `sep`; the empty
sequence gives one empty piece, as `''.split(sep)` does. -/
def splitChars (sep : Char) : List Char → List (List Char)
  | [] => [[]]
  | c :: cs =>
    if c = sep then [] :: splitChars sep cs
    else
      match splitChars sep cs with
      | [] => [[c]]
      | piece :: pieces => (c :: piece) :: pieces

/-- The method `s.split(sep)` for a one-character separator. -/
def split (s : String) (sep : Char) : List String :=
  (splitChars sep s.data).map String.mk

/-- JavaScript truthiness of a fetched body: `false`, `undefined` and the
empty string are falsy. -/
def truthy : Option String → Bool
  | none => false
  | some s => s != ""

/-! ## Loaders and fetchers -/

/-- How a loader's promise ends: rejected, the process exited inside the
callback, or resolved with a value. -/
inductive Loaded (α : Type) where
  | rejected (err : String)
  | exited
  | resolved (value : α)
deriving DecidableEq

/-- The callback of `getTLDs` (`cli.js:67`), applied to the reply of the
request for the TLD list. -/
def getTLDs (unicodeLower : String → String) (reply : HttpReply) : Loaded (List String) :=
  match reply.err with
  | some err => Loaded.rejected err
  | none =>
    if !truthy reply.body then Loaded.exited
    else
      match reply.body with
      | none => Loaded.exited
      | some body =>
        Loaded.resolved
          (((split body (Char.ofNat 10)).filter (fun tld => !startsWith tld '#')).map
            (fun tld => toLowerCase unicodeLower tld))

/-- The function `rawFetch` (`cli.js:80`): the promise always resolves, with
`false` (here `none`) on an error or a falsy body and with the body otherwise.
`request` is the HTTP client as a function of the address. -/
def rawFetch (request : String → HttpReply) (url : String) : Option String :=
  let reply := request ("http://" ++ url)
  if reply.err.isSome || !truthy reply.body then none else reply.body

/-- The constant `fetch = limiter.wrap(rawFetch)` (`cli.js:92`): the limiter
decides when the wrapped call starts and resolves with the wrapped call's own
result. -/
def fetch (request : String → HttpReply) (url : String) : Option String :=
  rawFetch request url

/-- The object `tldextract` passes to its callback. -/
structure TldParts where
  subdomain : String
  domain : String
  tld : String
deriving DecidableEq

/-- The function `extractHostname` (`cli.js:26`): rejects with the error of
`tldextract`, otherwise resolves with `obj.domain`. -/
def extractHostname (tldextract : String → Except String TldParts) (url : String) :
    Except String String :=
  match tldextract url with
  | Except.error err => Except.error err
  | Except.ok obj => Except.ok obj.domain

/-- The combinator `Promise.all` on settled promises: resolved with all values
when every promise resolved, rejected when one rejected (here with the reason
of the first rejected promise of the list). -/
def promiseAll {α : Type} : List (Except String α) → Except String (List α)
  | [] => Except.ok []
  | Except.error err :: _ => Except.error err
  | Except.ok v :: rest =>
    match promiseAll rest with
    | Except.error err => Except.error err
    | Except.ok vs => Except.ok (v :: vs)

/-- The constant `whitelistContent` (`cli.js:108`): one snapshot per whitelist
entry, its content fetched with `rawFetch` and its url extracted from the
entry. -/
def whitelistContent (request : String → HttpReply)
    (tldextract : String → Except String TldParts) (whitelist : List String) :
    Except String (List Snapshot) :=
  promiseAll (whitelist.map (fun entry =>
    let content := rawFetch request entry
    match extractHostname tldextract entry with
    | Except.error err => Except.error err
    | Except.ok hostname => Except.ok (Snapshot.mk hostname content)))

/-- The inner `tlds.map` of `cli.js:121`: the candidates of one hostname. -/
def permute (tlds : List String) (hostname : String) : JsVal :=
  JsVal.arr (tlds.map (fun tld => JsVal.obj (Candidate.mk (hostname ++ "." ++ tld) hostname)))

/-- The constant `domains` (`cli.js:119`): per whitelist entry, the array of
candidates of its hostname. -/
def domains (tldextract : String → Except String TldParts) (whitelist tlds : List String) :
    Except String (List JsVal) :=
  promiseAll (whitelist.map (fun entry =>
    match extractHostname tldextract entry with
    | Except.error err => Except.error err
    | Except.ok hostname => Except.ok (permute tlds hostname)))

/-! ## The classification callback (`cli.js:128`) -/

/-- What the user has been shown: the lines reported so far, and the progress
bar's total and value. -/
structure Console where
  reports : List Verdict
  total : Nat
  value : Nat
deriving DecidableEq

/-- The call `bar.increment()`. -/
def increment (out : Console) : Console :=
  Console.mk out.reports out.total (out.value + 1)

/-- The call `console.error` of `cli.js:133` for one verdict. -/
def report (out : Console) (v : Verdict) : Console :=
  Console.mk (out.reports ++ [v]) out.total out.value

/-- The body of the callback of `cli.js:128` for one candidate, from the console
it finds to the console it leaves.  `compareTwoStrings` is the function of
`string-similarity`, applied to the two values the script passes (a string, or
`none` for `false`): it returns a score or raises.  Reading `content` of the
`undefined` that `find` returns when no snapshot matches raises a `TypeError`.
An exception leaves the callback before `bar.increment()`; it is the
`Except.error` result. -/
def classify (cfg : Config)
    (compareTwoStrings : Option String → Option String → Except String ℚ)
    (request : String → HttpReply) (blacklist whitelist : List String)
    (snapshots : List Snapshot) (out : Console) (domain : Candidate) : Except String Console :=
  let valid := fetch request domain.url
  if truthy valid && !(blacklist.contains domain.url) && !(whitelist.contains domain.url) then
    match snapshots.find? (fun entry => entry.url == domain.parent) with
    | none => Except.error "TypeError: cannot read content of undefined"
    | some entry =>
      match compareTwoStrings entry.content valid with
      | Except.error err => Except.error err
      | Except.ok similarity =>
        if similarity > cfg.similarityThreshold then
          Except.ok (increment (report out (Verdict.mk domain.url similarity)))
        else Except.ok (increment out)
  else Except.ok (increment out)

/-- One callback settling: its effects are applied when it returns, and none
happened when it threw (the exception precedes every effect). -/
def settle (cfg : Config) (compareTwoStrings : Option String → Option String → Except String ℚ)
    (request : String → HttpReply) (blacklist whitelist : List String)
    (snapshots : List Snapshot) (out : Console) (domain : Candidate) : Console :=
  match classify cfg compareTwoStrings request blacklist whitelist snapshots out domain with
  | Except.ok out' => out'
  | Except.error _ => out

/-- The console when the process ends, the callbacks of `cli.js:128` settling
for the candidates of `order` one after the other, starting from `out`.  A
callback that throws rejects the `Promise.all` of `cli.js:128`; nothing in the
script handles the rejection, so the process ends there and the candidates
after it are never classified. -/
def classifyAll (cfg : Config) (compareTwoStrings : Option String → Option String → Except String ℚ)
    (request : String → HttpReply) (blacklist whitelist : List String)
    (snapshots : List Snapshot) (out : Console) (order : List Candidate) : Console :=
  match order with
  | [] => out
  | domain :: rest =>
    match classify cfg compareTwoStrings request blacklist whitelist snapshots out domain with
    | Except.ok out' =>
      classifyAll cfg compareTwoStrings request blacklist whitelist snapshots out' rest
    | Except.error _ => out

/-- The body of the script from `cli.js:106` on, the three lists loaded.
`Except.error` is the rejection that stops the script before any candidate is
classified; `Except.ok` carries the console when the process ends, after the
last callback or at the first callback that throws. -/
def run (cfg : Config) (compareTwoStrings : Option String → Option String → Except String ℚ)
    (request : String → HttpReply) (tldextract : String → Except String TldParts)
    (random : Nat → ℚ) (tlds blacklist whitelist : List String) : Except String Console :=
  match whitelistContent request tldextract whitelist with
  | Except.error err => Except.error err
  | Except.ok snapshots =>
    match domains tldextract whitelist tlds with
    | Except.error err => Except.error err
    | Except.ok ds =>
      let bar := Console.mk [] (flatten ds).length 0
      Except.ok (classifyAll cfg compareTwoStrings request blacklist whitelist snapshots bar
        (shuffle random (objects (flatten ds))))

/-! ## Requests in flight -/

/-- The addresses handed to the HTTP client whose callback has not fired yet. -/
abbrev InFlight := List String

/-- The synchronous part of one `rawFetch(url)` call: the promise executor runs
at once and calls `request`, so the request is in flight when the call
returns. -/
def rawFetchIssue (net : InFlight) (url : String) : InFlight :=
  net ++ ["http://" ++ url]

/-- The synchronous part of `whitelist.map(async entry => ...)` at `cli.js:108`:
each callback runs up to its first `await`, which is on `rawFetch(entry)`, and
no HTTP callback can fire before `map` returns. -/
def whitelistIssued (whitelist : List String) : InFlight :=
  whitelist.foldl rawFetchIssue []

/-! ## Candidate generation -/

/-- The fold that `list.reduce((a, b) => a.concat(...), [])` performs, started
from any accumulator, appends the flattening of the list to it. -/
theorem foldl_concat_eq (l acc : List JsVal) :
    l.foldl (fun a b => a ++ flattenItem b) acc = acc ++ flatten l := by
  induction l generalizing acc with
  | nil => simp [flatten]
  | cons b rest ih => simp [flatten, ih, List.append_assoc]

/-- The function `flatten` is the left fold of `concat` from the empty array,
which is how the source writes it. -/
theorem flatten_eq_reduce (l : List JsVal) :
    flatten l = l.foldl (fun a b => a ++ flattenItem b) [] := by
  rw [foldl_concat_eq]; rfl

/-- An array of objects is left as it is. -/
theorem flatten_map_obj (cs : List Candidate) :
    flatten (cs.map JsVal.obj) = cs.map JsVal.obj := by
  induction cs with
  | nil => rfl
  | cons c rest ih => simp [flatten, flattenItem, ih]

/-- The flattening of one hostname's array is the array's content. -/
theorem flattenItem_permute (tlds : List String) (h : String) :
    flattenItem (permute tlds h) =
      tlds.map (fun t => JsVal.obj (Candidate.mk (h ++ "." ++ t) h)) := by
  have := flatten_map_obj (tlds.map (fun t => Candidate.mk (h ++ "." ++ t) h))
  simpa [permute, flattenItem, List.map_map, Function.comp_def] using this

/-- Membership in the flattened candidate arrays. -/
theorem mem_flatten_permute (tlds hostnames : List String) (v : JsVal) :
    v ∈ flatten (hostnames.map (permute tlds)) ↔
      ∃ h ∈ hostnames, ∃ t ∈ tlds, v = JsVal.obj (Candidate.mk (h ++ "." ++ t) h) := by
  induction hostnames with
  | nil => simp [flatten]
  | cons h rest ih =>
    simp only [List.map_cons, flatten, List.mem_append, ih, flattenItem_permute, List.mem_map,
      List.mem_cons, exists_eq_or_imp]
    constructor
    · rintro (⟨t, ht, rfl⟩ | hr)
      · exact Or.inl ⟨t, ht, rfl⟩
      · exact Or.inr hr
    · rintro (⟨t, ht, rfl⟩ | hr)
      · exact Or.inl ⟨t, ht, rfl⟩
      · exact Or.inr hr

/-- The number of flattened candidates. -/
theorem length_flatten_permute (tlds hostnames : List String) :
    (flatten (hostnames.map (permute tlds))).length = tlds.length * hostnames.length := by
  induction hostnames with
  | nil => simp [flatten]
  | cons h rest ih =>
    simp only [List.map_cons, flatten, List.length_append, ih, flattenItem_permute,
      List.length_map, List.length_cons]
    ring

/-- C1. For every TLD corpus and every list of base hostnames, flattening the
per-hostname candidate arrays gives exactly N×M values; for each hostname h and
TLD t the candidate with url h + "." + t and parent h is among them; every value
is such a candidate; and an empty corpus gives no candidate. -/
theorem candidate_generation (tlds hostnames : List String) :
    (flatten (hostnames.map (permute tlds))).length = tlds.length * hostnames.length ∧
    (∀ h ∈ hostnames, ∀ t ∈ tlds,
      JsVal.obj (Candidate.mk (h ++ "." ++ t) h) ∈ flatten (hostnames.map (permute tlds))) ∧
    (∀ v ∈ flatten (hostnames.map (permute tlds)),
      ∃ h ∈ hostnames, ∃ t ∈ tlds, v = JsVal.obj (Candidate.mk (h ++ "." ++ t) h)) ∧
    flatten (hostnames.map (permute [])) = [] := by
  refine ⟨length_flatten_permute tlds hostnames, ?_, ?_, ?_⟩
  · intro h hh t ht
    exact (mem_flatten_permute tlds hostnames _).2 ⟨h, hh, t, ht, rfl⟩
  · intro v hv
    exact (mem_flatten_permute tlds hostnames v).1 hv
  · have hlen := length_flatten_permute [] hostnames
    simpa using hlen

/-! ## The classification callback -/

/-- A fetch that resolved with a body resolved with a truthy one. -/
theorem truthy_of_rawFetch {request : String → HttpReply} {url body : String}
    (h : rawFetch request url = some body) : truthy (some body) = true := by
  unfold rawFetch at h
  simp only at h
  split at h
  · exact absurd h (by simp)
  · rename_i hc
    rw [h] at hc
    have hc2 : (request ("http://" ++ url)).err = none ∧ truthy (some body) = true := by
      simpa using hc
    exact hc2.2

/-- C2. A candidate whose url is an element of the blacklist or of the
whitelist (equality of the whole string) is classified without a verdict: the
callback returns with the reports unchanged, whatever the fetched content, the
snapshots, the score function and the threshold. -/
theorem list_suppression (cfg : Config) (compareTwoStrings : Option String → Option String → Except String ℚ)
    (request : String → HttpReply) (blacklist whitelist : List String)
    (snapshots : List Snapshot) (out : Console) (domain : Candidate)
    (h : domain.url ∈ blacklist ∨ domain.url ∈ whitelist) :
    classify cfg compareTwoStrings request blacklist whitelist snapshots out domain
        = Except.ok (increment out) ∧
      (settle cfg compareTwoStrings request blacklist whitelist snapshots out domain).reports
        = out.reports := by
  have hc : classify cfg compareTwoStrings request blacklist whitelist snapshots out domain
      = Except.ok (increment out) := by
    unfold classify
    rcases h with h | h <;> simp [h]
  exact ⟨hc, by simp [settle, hc, increment]⟩

/-- Witness of C2: the spec's scenario, `example.com` on the whitelist and
answering with the genuine page. -/
theorem list_suppression_witness :
    (settle (Config.mk 0 1 (4 / 5)) (fun _ _ => Except.ok 1)
      (fun _ => HttpReply.mk none (some "Buy crypto now")) [] ["example.com"]
      [Snapshot.mk "example" (some "Buy crypto now")] (Console.mk [] 2 0)
      (Candidate.mk "example.com" "example")).reports = [] :=
  (list_suppression (Config.mk 0 1 (4 / 5)) (fun _ _ => Except.ok 1)
    (fun _ => HttpReply.mk none (some "Buy crypto now")) [] ["example.com"]
    [Snapshot.mk "example" (some "Buy crypto now")] (Console.mk [] 2 0)
    (Candidate.mk "example.com" "example") (Or.inr (by simp))).2

/-- C3. For a candidate whose fetch resolved with a body and whose url is in
neither list: when the score of the first snapshot of its parent against the
body is strictly above the threshold, exactly that verdict is appended to the
reports; in every other case (a score equal to the threshold included) the
reports are unchanged. -/
theorem threshold_rule (cfg : Config)
    (compareTwoStrings : Option String → Option String → Except String ℚ)
    (request : String → HttpReply) (blacklist whitelist : List String)
    (snapshots : List Snapshot) (out : Console) (domain : Candidate) (body : String)
    (hv : fetch request domain.url = some body)
    (hb : domain.url ∉ blacklist) (hw : domain.url ∉ whitelist) :
    (∀ entry score, snapshots.find? (fun e => e.url == domain.parent) = some entry →
      compareTwoStrings entry.content (some body) = Except.ok score →
      cfg.similarityThreshold < score →
      (settle cfg compareTwoStrings request blacklist whitelist snapshots out domain).reports
        = out.reports ++ [Verdict.mk domain.url score]) ∧
    ((¬ ∃ entry score, snapshots.find? (fun e => e.url == domain.parent) = some entry ∧
        compareTwoStrings entry.content (some body) = Except.ok score ∧
        cfg.similarityThreshold < score) →
      (settle cfg compareTwoStrings request blacklist whitelist snapshots out domain).reports
        = out.reports) := by
  have ht : truthy (some body) = true := truthy_of_rawFetch hv
  constructor
  · intro entry score hfind hscore hgt
    simp [settle, classify, hv, ht, hb, hw, hfind, hscore, hgt, increment, report]
  · intro hno
    cases hfind : snapshots.find? (fun e => e.url == domain.parent) with
    | none => simp [settle, classify, hv, ht, hb, hw, hfind]
    | some entry =>
      cases hscore : compareTwoStrings entry.content (some body) with
      | error err => simp [settle, classify, hv, ht, hb, hw, hfind, hscore]
      | ok score =>
        have hle : ¬ cfg.similarityThreshold < score :=
          fun hgt => hno ⟨entry, score, hfind, hscore, hgt⟩
        simp [settle, classify, hv, ht, hb, hw, hfind, hscore, hle, increment]

/-- Witness of C3: the spec's scenario, `example.net` answering with a page
that scores 9/10 against the snapshot of `example`, threshold 4/5. -/
theorem threshold_rule_witness :
    (settle (Config.mk 0 1 (4 / 5)) (fun _ _ => Except.ok (9 / 10))
      (fun u => if u = "http://example.net" then HttpReply.mk none (some "Buy crypto now!!")
        else HttpReply.mk (some "ENOTFOUND") none)
      [] ["example.com"] [Snapshot.mk "example" (some "Buy crypto now")] (Console.mk [] 2 0)
      (Candidate.mk "example.net" "example")).reports
      = [] ++ [Verdict.mk "example.net" (9 / 10)] :=
  (threshold_rule (Config.mk 0 1 (4 / 5)) (fun _ _ => Except.ok (9 / 10))
    (fun u => if u = "http://example.net" then HttpReply.mk none (some "Buy crypto now!!")
      else HttpReply.mk (some "ENOTFOUND") none)
    [] ["example.com"] [Snapshot.mk "example" (some "Buy crypto now")] (Console.mk [] 2 0)
    (Candidate.mk "example.net" "example") "Buy crypto now!!"
    (by decide) (by decide) (by decide)).1
    (Snapshot.mk "example" (some "Buy crypto now")) (9 / 10) (by decide) rfl
    (by norm_num)

/-- C4. When the request of a candidate ends with an error or with an empty
(or missing) body, the fetch resolves with the absence marker and the callback
returns with the reports unchanged, whatever the lists, the snapshots, the
score function and the threshold. -/
theorem absent_content_suppressed (cfg : Config) (compareTwoStrings : Option String → Option String → Except String ℚ)
    (request : String → HttpReply) (blacklist whitelist : List String)
    (snapshots : List Snapshot) (out : Console) (domain : Candidate)
    (h : (request ("http://" ++ domain.url)).err ≠ none ∨
      (request ("http://" ++ domain.url)).body = some "" ∨
      (request ("http://" ++ domain.url)).body = none) :
    fetch request domain.url = none ∧
      classify cfg compareTwoStrings request blacklist whitelist snapshots out domain
        = Except.ok (increment out) ∧
      (settle cfg compareTwoStrings request blacklist whitelist snapshots out domain).reports
        = out.reports := by
  have hf : fetch request domain.url = none := by
    unfold fetch rawFetch
    rcases h with h | h | h
    · cases he : (request ("http://" ++ domain.url)).err with
      | none => exact absurd he h
      | some e => simp [he]
    · simp [h, truthy]
    · simp [h, truthy]
  have hc : classify cfg compareTwoStrings request blacklist whitelist snapshots out domain
      = Except.ok (increment out) := by
    simp [classify, hf, truthy]
  exact ⟨hf, hc, by simp [settle, hc, increment]⟩

/-- Witness of C4: a candidate whose request fails, its parent's snapshot
identical to what any page would score 1 against. -/
theorem absent_content_suppressed_witness :
    fetch (fun _ => HttpReply.mk (some "ENOTFOUND") none) "example.org" = none ∧
      classify (Config.mk 0 1 0) (fun _ _ => Except.ok 1) (fun _ => HttpReply.mk (some "ENOTFOUND") none)
        [] [] [Snapshot.mk "example" (some "Buy crypto now")] (Console.mk [] 2 0)
        (Candidate.mk "example.org" "example") = Except.ok (increment (Console.mk [] 2 0)) ∧
      (settle (Config.mk 0 1 0) (fun _ _ => Except.ok 1) (fun _ => HttpReply.mk (some "ENOTFOUND") none)
        [] [] [Snapshot.mk "example" (some "Buy crypto now")] (Console.mk [] 2 0)
        (Candidate.mk "example.org" "example")).reports = [] :=
  absent_content_suppressed (Config.mk 0 1 0) (fun _ _ => Except.ok 1)
    (fun _ => HttpReply.mk (some "ENOTFOUND") none) [] []
    [Snapshot.mk "example" (some "Buy crypto now")] (Console.mk [] 2 0)
    (Candidate.mk "example.org" "example") (Or.inl (by simp))

/-! ## Shuffling -/

/-- Exchanging two positions keeps the elements and their multiplicities. -/
theorem swap_perm {α : Type} (a : List α) (i j : Nat) : (swap a i j).Perm a := by
  classical
  unfold swap
  cases hi : a[i]? with
  | none => simp
  | some ai =>
    cases hj : a[j]? with
    | none => simp
    | some aj =>
      simp only
      obtain ⟨hil, hai⟩ := List.getElem?_eq_some_iff.1 hi
      obtain ⟨hjl, haj⟩ := List.getElem?_eq_some_iff.1 hj
      rw [List.perm_iff_count]
      intro c
      have hjl2 : j < (a.set i aj).length := by simpa using hjl
      have hread : (a.set i aj)[j] = aj := by
        rw [List.getElem_set]
        split
        · rfl
        · exact haj
      rw [List.count_set _ _ _ _ hjl2, List.count_set _ _ _ _ hil, hread, hai]
      have hpos : ai = c → 0 < List.count c a := by
        intro h
        subst h
        exact List.count_pos_iff.2 (hai ▸ List.getElem_mem _)
      by_cases h1 : ai = c
      · have hc := hpos h1
        by_cases h2 : aj = c <;> simp [h1, h2] <;> omega
      · by_cases h2 : aj = c <;> simp [h1, h2]

/-- Rounding to the nearest integer adds at most one half. -/
theorem roundHalfEven_le (q : ℚ) : (roundHalfEven q : ℚ) ≤ q + 1 / 2 := by
  unfold roundHalfEven
  have hfl : ((Rat.floor q : ℤ) : ℚ) ≤ q := by
    show ((⌊q⌋ : ℤ) : ℚ) ≤ q
    exact Int.floor_le q
  simp only
  split_ifs with h1 h2 h3
  · linarith
  · push_cast; linarith
  · linarith
  · push_cast; linarith

/-- Rounding a rational that is not negative gives an integer that is not
negative. -/
theorem roundHalfEven_nonneg (q : ℚ) (h : 0 ≤ q) : 0 ≤ roundHalfEven q := by
  unfold roundHalfEven
  have hfl : (0 : ℤ) ≤ Rat.floor q := by
    show 0 ≤ ⌊q⌋
    exact Int.floor_nonneg.2 h
  simp only
  split_ifs <;> omega

/-- Rounding to a double keeps the sign and adds at most half a unit in the
last place, which is at most the value times `2 ^ -53`. -/
theorem roundDouble_bounds (x : ℚ) (hx : 0 ≤ x) :
    0 ≤ roundDouble x ∧ roundDouble x ≤ x * (1 + 1 / 2 ^ 53) := by
  unfold roundDouble
  split_ifs with h0
  · subst h0; norm_num
  · have hpos : 0 < x := lt_of_le_of_ne hx (Ne.symm h0)
    simp only
    rw [abs_of_pos hpos]
    set e := Int.log 2 x with he
    have hulp : (0 : ℚ) < ((2 : ℕ) : ℚ) ^ (e - 52) := by positivity
    have hle : ((2 : ℕ) : ℚ) ^ e ≤ x := Int.zpow_log_le_self (by norm_num) hpos
    have hsplit : ((2 : ℕ) : ℚ) ^ (e - 52) = ((2 : ℕ) : ℚ) ^ e / 2 ^ 52 := by
      rw [zpow_sub₀ (by norm_num)]
      norm_num
    constructor
    · have hn := roundHalfEven_nonneg (x / ((2 : ℕ) : ℚ) ^ (e - 52)) (by positivity)
      have hq : (0 : ℚ) ≤ (roundHalfEven (x / ((2 : ℕ) : ℚ) ^ (e - 52)) : ℚ) := by
        exact_mod_cast hn
      positivity
    · have h1 := roundHalfEven_le (x / ((2 : ℕ) : ℚ) ^ (e - 52))
      have h2 : (roundHalfEven (x / ((2 : ℕ) : ℚ) ^ (e - 52)) : ℚ) * ((2 : ℕ) : ℚ) ^ (e - 52)
          ≤ (x / ((2 : ℕ) : ℚ) ^ (e - 52) + 1 / 2) * ((2 : ℕ) : ℚ) ^ (e - 52) :=
        mul_le_mul_of_nonneg_right h1 hulp.le
      have h3 : (x / ((2 : ℕ) : ℚ) ^ (e - 52) + 1 / 2) * ((2 : ℕ) : ℚ) ^ (e - 52)
          = x + ((2 : ℕ) : ℚ) ^ (e - 52) / 2 := by
        field_simp
        ring
      rw [h3] at h2
      have h4 : ((2 : ℕ) : ℚ) ^ e / 2 ^ 52 / 2 ≤ x / 2 ^ 53 := by
        rw [div_div]
        have h53 : (2 : ℚ) ^ 52 * 2 = 2 ^ 53 := by norm_num
        rw [h53]
        exact div_le_div_of_nonneg_right hle (by positivity)
      rw [hsplit] at h2 ⊢
      linarith

/-- For a draw that is a double in `[0, 1)`, so at most `1 - 2 ^ -53`, the
index picked is the floor of the rounded product (it is not negative) and lies
in `0..i`. -/
theorem pick_spec (r : ℚ) (i : Nat) (h0 : 0 ≤ r) (h1 : r ≤ 1 - 1 / 2 ^ 53) :
    ((pick r i : Nat) : ℤ) = Rat.floor (roundDouble (r * ((i : ℚ) + 1))) ∧ pick r i ≤ i := by
  unfold pick
  have hpos : (0 : ℚ) < (i : ℚ) + 1 := by positivity
  have hx : 0 ≤ r * ((i : ℚ) + 1) := by positivity
  obtain ⟨hb0, hb1⟩ := roundDouble_bounds _ hx
  have hlt : roundDouble (r * ((i : ℚ) + 1)) < (i : ℚ) + 1 := by
    have h2 : r * ((i : ℚ) + 1) * (1 + 1 / 2 ^ 53)
        ≤ (1 - 1 / 2 ^ 53) * ((i : ℚ) + 1) * (1 + 1 / 2 ^ 53) := by
      apply mul_le_mul_of_nonneg_right _ (by positivity)
      exact mul_le_mul_of_nonneg_right h1 hpos.le
    have h3 : (1 - 1 / 2 ^ 53) * ((i : ℚ) + 1) * (1 + 1 / 2 ^ 53) < (i : ℚ) + 1 := by
      have h4 : (1 - 1 / 2 ^ 53 : ℚ) * (1 + 1 / 2 ^ 53) < 1 := by norm_num
      nlinarith
    linarith
  have hge : (0 : ℤ) ≤ Rat.floor (roundDouble (r * ((i : ℚ) + 1))) := by
    show 0 ≤ ⌊roundDouble (r * ((i : ℚ) + 1))⌋
    exact Int.floor_nonneg.2 hb0
  have hfl : Rat.floor (roundDouble (r * ((i : ℚ) + 1))) < (i : ℤ) + 1 := by
    show ⌊roundDouble (r * ((i : ℚ) + 1))⌋ < (i : ℤ) + 1
    rw [Int.floor_lt]
    push_cast
    exact hlt
  omega

/-- The draw 0 picks index 0. -/
theorem pick_zero (i : Nat) : pick 0 i = 0 := by
  have h : Rat.floor 0 = 0 := by
    show ⌊(0 : ℚ)⌋ = 0
    exact Int.floor_zero
  simp [pick, roundDouble, h]

/-- The loop of `shuffle` keeps the elements and their multiplicities. -/
theorem shuffleLoop_perm {α : Type} (random : Nat → ℚ) (i k : Nat) (a : List α) :
    (shuffleLoop random k i a).Perm a := by
  induction i generalizing k a with
  | zero => simp [shuffleLoop]
  | succ i ih =>
    simp only [shuffleLoop]
    exact (ih _ _).trans (swap_perm a _ _)

/-- The reports after one callback are the reports before it followed by what
the callback reports on an empty console. -/
theorem settle_reports (cfg : Config) (compareTwoStrings : Option String → Option String → Except String ℚ)
    (request : String → HttpReply) (blacklist whitelist : List String)
    (snapshots : List Snapshot) (out : Console) (c : Candidate) :
    (settle cfg compareTwoStrings request blacklist whitelist snapshots out c).reports =
      out.reports ++
        (settle cfg compareTwoStrings request blacklist whitelist snapshots
          (Console.mk [] 0 0) c).reports := by
  unfold settle classify
  simp only
  split_ifs with h1
  · cases hfind : snapshots.find? (fun entry => entry.url == c.parent) with
    | none => simp
    | some entry =>
      cases hscore : compareTwoStrings entry.content (fetch request c.url) with
      | error err => simp [hscore]
      | ok score =>
        by_cases hgt : score > cfg.similarityThreshold <;>
          simp [hscore, hgt, increment, report]
  · simp [increment]

/-- A verdict is among the reports after a sequence of callbacks each of which
leaves its effects exactly when it was there before or one of the candidates
reports it. -/
theorem mem_foldl_settle_reports (cfg : Config)
    (compareTwoStrings : Option String → Option String → Except String ℚ)
    (request : String → HttpReply) (blacklist whitelist : List String)
    (snapshots : List Snapshot) (order : List Candidate) (out : Console) (v : Verdict) :
    v ∈ (order.foldl (settle cfg compareTwoStrings request blacklist whitelist snapshots)
        out).reports ↔
      v ∈ out.reports ∨ ∃ c ∈ order,
        v ∈ (settle cfg compareTwoStrings request blacklist whitelist snapshots
          (Console.mk [] 0 0) c).reports := by
  induction order generalizing out with
  | nil => simp
  | cons c rest ih =>
    rw [List.foldl_cons, ih, settle_reports]
    simp only [List.mem_append, List.mem_cons, exists_eq_or_imp]
    tauto

/-- When no callback throws, the process ends after the last callback, each
having left its effects. -/
theorem classifyAll_eq_foldl (cfg : Config)
    (compareTwoStrings : Option String → Option String → Except String ℚ)
    (request : String → HttpReply) (blacklist whitelist : List String)
    (snapshots : List Snapshot) (order : List Candidate) (out : Console)
    (hok : ∀ c ∈ order, ∀ o, ∃ o2,
      classify cfg compareTwoStrings request blacklist whitelist snapshots o c = Except.ok o2) :
    classifyAll cfg compareTwoStrings request blacklist whitelist snapshots out order =
      order.foldl (settle cfg compareTwoStrings request blacklist whitelist snapshots) out := by
  induction order generalizing out with
  | nil => rfl
  | cons c rest ih =>
    obtain ⟨o2, ho2⟩ := hok c (List.mem_cons_self c rest) out
    have hrest : ∀ d ∈ rest, ∀ o, ∃ o3,
        classify cfg compareTwoStrings request blacklist whitelist snapshots o d = Except.ok o3 :=
      fun d hd o => hok d (List.mem_cons_of_mem c hd) o
    have hs : settle cfg compareTwoStrings request blacklist whitelist snapshots out c = o2 := by
      simp [settle, ho2]
    rw [List.foldl_cons, hs, ← ih o2 hrest]
    simp [classifyAll, ho2]

/-- C6 (amended). For draws that are doubles in `[0, 1)` every index the loop
picks lies inside the part of the array still to be shuffled, and `shuffle`
returns a permutation of its input of the same length; when no callback throws
for a candidate of the list, the verdicts reported over the shuffled candidates
are the verdicts reported over the unshuffled ones. -/
theorem order_independence (random : Nat → ℚ)
    (hr : ∀ k, 0 ≤ random k ∧ random k ≤ 1 - 1 / 2 ^ 53)
    (cfg : Config) (compareTwoStrings : Option String → Option String → Except String ℚ)
    (request : String → HttpReply) (blacklist whitelist : List String)
    (snapshots : List Snapshot) (out : Console) (cands : List Candidate) :
    (∀ k i, pick (random k) i ≤ i) ∧
    (shuffle random cands).Perm cands ∧
    (shuffle random cands).length = cands.length ∧
    ((∀ c ∈ cands, ∀ o, ∃ o2,
        classify cfg compareTwoStrings request blacklist whitelist snapshots o c
          = Except.ok o2) →
      ∀ v, v ∈ (classifyAll cfg compareTwoStrings request blacklist whitelist snapshots out
            (shuffle random cands)).reports ↔
          v ∈ (classifyAll cfg compareTwoStrings request blacklist whitelist snapshots out
            cands).reports) := by
  have hperm : (shuffle random cands).Perm cands := shuffleLoop_perm random _ _ cands
  refine ⟨fun k i => (pick_spec (random k) i (hr k).1 (hr k).2).2, hperm, hperm.length_eq, ?_⟩
  intro hok v
  have hok2 : ∀ c ∈ shuffle random cands, ∀ o, ∃ o2,
      classify cfg compareTwoStrings request blacklist whitelist snapshots o c = Except.ok o2 :=
    fun c hc o => hok c (hperm.mem_iff.1 hc) o
  rw [classifyAll_eq_foldl _ _ _ _ _ _ _ _ hok2, classifyAll_eq_foldl _ _ _ _ _ _ _ _ hok,
    mem_foldl_settle_reports, mem_foldl_settle_reports]
  constructor
  · rintro (h | ⟨c, hc, hv⟩)
    · exact Or.inl h
    · exact Or.inr ⟨c, hperm.mem_iff.1 hc, hv⟩
  · rintro (h | ⟨c, hc, hv⟩)
    · exact Or.inl h
    · exact Or.inr ⟨c, hperm.mem_iff.2 hc, hv⟩

/-- Witness of C6: three candidates that all answer and whose snapshots hold a
page, every draw equal to 1/2. -/
theorem order_independence_witness :
    (shuffle (fun _ => (1 / 2 : ℚ))
      [Candidate.mk "a.com" "a", Candidate.mk "a.net" "a", Candidate.mk "b.com" "b"]).Perm
      [Candidate.mk "a.com" "a", Candidate.mk "a.net" "a", Candidate.mk "b.com" "b"] ∧
    ∀ v, v ∈ (classifyAll (Config.mk 0 1 0) (fun _ _ => Except.ok 1)
          (fun _ => HttpReply.mk none (some "page")) [] []
          [Snapshot.mk "a" (some "page"), Snapshot.mk "b" (some "page")] (Console.mk [] 3 0)
          (shuffle (fun _ => (1 / 2 : ℚ))
            [Candidate.mk "a.com" "a", Candidate.mk "a.net" "a",
              Candidate.mk "b.com" "b"])).reports ↔
        v ∈ (classifyAll (Config.mk 0 1 0) (fun _ _ => Except.ok 1)
          (fun _ => HttpReply.mk none (some "page")) [] []
          [Snapshot.mk "a" (some "page"), Snapshot.mk "b" (some "page")] (Console.mk [] 3 0)
          [Candidate.mk "a.com" "a", Candidate.mk "a.net" "a",
            Candidate.mk "b.com" "b"]).reports :=
  ⟨(order_independence (fun _ => (1 / 2 : ℚ)) (fun _ => ⟨by norm_num, by norm_num⟩)
      (Config.mk 0 1 0) (fun _ _ => Except.ok 1) (fun _ => HttpReply.mk none (some "page")) [] []
      [Snapshot.mk "a" (some "page"), Snapshot.mk "b" (some "page")] (Console.mk [] 3 0)
      [Candidate.mk "a.com" "a", Candidate.mk "a.net" "a", Candidate.mk "b.com" "b"]).2.1,
   (order_independence (fun _ => (1 / 2 : ℚ)) (fun _ => ⟨by norm_num, by norm_num⟩)
      (Config.mk 0 1 0) (fun _ _ => Except.ok 1) (fun _ => HttpReply.mk none (some "page")) [] []
      [Snapshot.mk "a" (some "page"), Snapshot.mk "b" (some "page")] (Console.mk [] 3 0)
      [Candidate.mk "a.com" "a", Candidate.mk "a.net" "a", Candidate.mk "b.com" "b"]).2.2.2
      (by
        intro c hc o
        simp only [List.mem_cons, List.mem_singleton, List.not_mem_nil, or_false] at hc
        rcases hc with rfl | rfl | rfl <;> exact ⟨_, rfl⟩)⟩

/-- Counterexample to C6 as stated: the snapshot of `a` holds `false` and
`compareTwoStrings` raises on it, the snapshot of `b` holds a page that
`b.net` matches.  The draw 0 turns the order `a.net, b.net` into
`b.net, a.net`; in the shuffled order `b.net` is reported before the callback
of `a.net` ends the process, in the unshuffled order nothing is reported. -/
theorem order_changes_verdicts :
    shuffle (fun _ => (0 : ℚ)) [Candidate.mk "a.net" "a", Candidate.mk "b.net" "b"]
      = [Candidate.mk "b.net" "b", Candidate.mk "a.net" "a"] ∧
    (classifyAll (Config.mk 0 1 0)
        (fun first _ => match first with
          | none => Except.error "TypeError: first.replace is not a function"
          | some _ => Except.ok 1)
        (fun _ => HttpReply.mk none (some "page")) [] []
        [Snapshot.mk "a" none, Snapshot.mk "b" (some "page")] (Console.mk [] 2 0)
        (shuffle (fun _ => (0 : ℚ)) [Candidate.mk "a.net" "a", Candidate.mk "b.net" "b"])).reports
      = [Verdict.mk "b.net" 1] ∧
    (classifyAll (Config.mk 0 1 0)
        (fun first _ => match first with
          | none => Except.error "TypeError: first.replace is not a function"
          | some _ => Except.ok 1)
        (fun _ => HttpReply.mk none (some "page")) [] []
        [Snapshot.mk "a" none, Snapshot.mk "b" (some "page")] (Console.mk [] 2 0)
        [Candidate.mk "a.net" "a", Candidate.mk "b.net" "b"]).reports
      = [] := by
  have hsh : shuffle (fun _ => (0 : ℚ)) [Candidate.mk "a.net" "a", Candidate.mk "b.net" "b"]
      = [Candidate.mk "b.net" "b", Candidate.mk "a.net" "a"] := by
    simp [shuffle, shuffleLoop, pick_zero, swap]
  refine ⟨hsh, ?_, rfl⟩
  rw [hsh]
  rfl

/-! ## Snapshots, candidates and hostname extraction -/

/-- The combinator `promiseAll` resolves exactly when every promise resolved,
with the values in order. -/
theorem promiseAll_ok_iff {α : Type} (l : List (Except String α)) (vs : List α) :
    promiseAll l = Except.ok vs ↔ l = vs.map Except.ok := by
  induction l generalizing vs with
  | nil => cases vs <;> simp [promiseAll]
  | cons p rest ih =>
    cases p with
    | error err => cases vs <;> simp [promiseAll]
    | ok v =>
      cases hrest : promiseAll rest with
      | error err =>
        cases vs with
        | nil => simp [promiseAll, hrest]
        | cons w ws =>
          simp only [promiseAll, hrest, List.map_cons, List.cons.injEq]
          constructor
          · intro h
            cases h
          · rintro ⟨_, hws⟩
            rw [(ih ws).2 hws] at hrest
            cases hrest
      | ok us =>
        have hus := (ih us).1 hrest
        cases vs with
        | nil => simp [promiseAll, hrest]
        | cons w ws =>
          simp only [promiseAll, hrest, Except.ok.injEq, List.cons.injEq, List.map_cons]
          constructor
          · rintro ⟨rfl, rfl⟩
            exact ⟨rfl, hus⟩
          · rintro ⟨rfl, hws⟩
            refine ⟨rfl, ?_⟩
            have := (ih ws).2 hws
            rw [hrest] at this
            exact Except.ok.inj this

/-- The combinator `promiseAll` rejects exactly when some promise rejected. -/
theorem promiseAll_error_iff {α : Type} (l : List (Except String α)) :
    (∃ err, promiseAll l = Except.error err) ↔ ∃ err, Except.error err ∈ l := by
  induction l with
  | nil => simp [promiseAll]
  | cons p rest ih =>
    cases p with
    | error err =>
      simp only [promiseAll, Except.error.injEq, exists_eq', List.mem_cons, true_iff]
      exact ⟨err, Or.inl rfl⟩
    | ok v =>
      cases hrest : promiseAll rest with
      | error err =>
        have : ∃ e, Except.error e ∈ rest := ih.1 ⟨err, hrest⟩
        obtain ⟨e, he⟩ := this
        simp only [promiseAll, hrest, Except.error.injEq, exists_eq', List.mem_cons, true_iff]
        exact ⟨e, Or.inr he⟩
      | ok us =>
        have hno : ¬ ∃ e, Except.error e ∈ rest := by
          intro h
          obtain ⟨e, he⟩ := ih.2 h
          rw [hrest] at he
          cases he
        simp only [promiseAll, hrest, List.mem_cons]
        constructor
        · rintro ⟨e, he⟩
          cases he
        · rintro ⟨e, he | he⟩
          · cases he
          · exact absurd ⟨e, he⟩ hno

/-- The snapshot phase rejects exactly when `tldextract` fails on an entry. -/
theorem whitelistContent_error_iff (request : String → HttpReply)
    (tldextract : String → Except String TldParts) (whitelist : List String) :
    (∃ err, whitelistContent request tldextract whitelist = Except.error err) ↔
      ∃ entry ∈ whitelist, ∃ err, tldextract entry = Except.error err := by
  unfold whitelistContent
  rw [promiseAll_error_iff]
  simp only [List.mem_map, extractHostname]
  constructor
  · rintro ⟨err, entry, hmem, h⟩
    refine ⟨entry, hmem, ?_⟩
    cases ht : tldextract entry with
    | error e => exact ⟨e, rfl⟩
    | ok obj => rw [ht] at h; cases h
  · rintro ⟨entry, hmem, err, ht⟩
    exact ⟨err, entry, hmem, by simp [ht]⟩

/-- The candidate phase rejects exactly when `tldextract` fails on an entry. -/
theorem domains_error_iff (tldextract : String → Except String TldParts)
    (whitelist tlds : List String) :
    (∃ err, domains tldextract whitelist tlds = Except.error err) ↔
      ∃ entry ∈ whitelist, ∃ err, tldextract entry = Except.error err := by
  unfold domains
  rw [promiseAll_error_iff]
  simp only [List.mem_map, extractHostname]
  constructor
  · rintro ⟨err, entry, hmem, h⟩
    refine ⟨entry, hmem, ?_⟩
    cases ht : tldextract entry with
    | error e => exact ⟨e, rfl⟩
    | ok obj => rw [ht] at h; cases h
  · rintro ⟨entry, hmem, err, ht⟩
    exact ⟨err, entry, hmem, by simp [ht]⟩

/-- The urls of the snapshots are the hostnames extracted from the whitelist,
entry by entry. -/
theorem whitelistContent_urls (request : String → HttpReply)
    (tldextract : String → Except String TldParts) (whitelist : List String)
    (snapshots : List Snapshot)
    (h : whitelistContent request tldextract whitelist = Except.ok snapshots) :
    whitelist.map (extractHostname tldextract) = (snapshots.map Snapshot.url).map Except.ok := by
  unfold whitelistContent at h
  rw [promiseAll_ok_iff] at h
  induction whitelist generalizing snapshots with
  | nil => cases snapshots <;> simp_all
  | cons entry rest ih =>
    cases snapshots with
    | nil => simp at h
    | cons s ss =>
      simp only [List.map_cons, List.cons.injEq] at h ⊢
      refine ⟨?_, ih ss h.2⟩
      cases he : extractHostname tldextract entry with
      | error err => rw [he] at h; cases h.1
      | ok hostname =>
        rw [he] at h
        have := Except.ok.inj h.1
        rw [← this]

/-- The candidate arrays are those of the hostnames extracted from the
whitelist, entry by entry. -/
theorem domains_shape (tldextract : String → Except String TldParts)
    (whitelist tlds : List String) (ds : List JsVal)
    (h : domains tldextract whitelist tlds = Except.ok ds) :
    ∃ hostnames : List String,
      whitelist.map (extractHostname tldextract) = hostnames.map Except.ok ∧
      ds = hostnames.map (permute tlds) := by
  unfold domains at h
  rw [promiseAll_ok_iff] at h
  induction whitelist generalizing ds with
  | nil =>
    cases ds with
    | nil => exact ⟨[], rfl, rfl⟩
    | cons d rest => simp at h
  | cons entry rest ih =>
    cases ds with
    | nil => simp at h
    | cons d dr =>
      simp only [List.map_cons, List.cons.injEq] at h
      obtain ⟨hs, hmap, hds⟩ := ih dr h.2
      cases he : extractHostname tldextract entry with
      | error err => rw [he] at h; cases h.1
      | ok hostname =>
        rw [he] at h
        have hd := Except.ok.inj h.1
        exact ⟨hostname :: hs, by simp [he, hmap], by simp [← hd, hds]⟩

/-- The objects of a list of values are the candidates wrapped in it. -/
theorem mem_objects (l : List JsVal) (c : Candidate) : c ∈ objects l ↔ JsVal.obj c ∈ l := by
  induction l with
  | nil => simp [objects]
  | cons v rest ih =>
    cases v with
    | obj d => simp [objects, ih]
    | arr items => simp [objects, ih]

/-- Wrapping in `Except.ok` loses nothing. -/
theorem map_ok_injective {α : Type} (l₁ l₂ : List α)
    (h : l₁.map (Except.ok : α → Except String α) = l₂.map Except.ok) : l₁ = l₂ := by
  induction l₁ generalizing l₂ with
  | nil => cases l₂ <;> simp_all
  | cons a rest ih =>
    cases l₂ with
    | nil => simp at h
    | cons b rest2 =>
      simp only [List.map_cons, List.cons.injEq, Except.ok.injEq] at h
      rw [h.1, ih rest2 h.2]

/-- C7 (amended). When both phases succeed, the parent of every generated
candidate is the url of at least one snapshot, so the lookup by parent finds an
entry with that url; and it is the url of exactly one snapshot when the urls of
the snapshots (the hostnames extracted from the whitelist entries) are pairwise
distinct. -/
theorem parent_resolves (request : String → HttpReply)
    (tldextract : String → Except String TldParts) (whitelist tlds : List String)
    (snapshots : List Snapshot) (ds : List JsVal)
    (hs : whitelistContent request tldextract whitelist = Except.ok snapshots)
    (hd : domains tldextract whitelist tlds = Except.ok ds)
    (c : Candidate) (hc : c ∈ objects (flatten ds)) :
    1 ≤ snapshots.countP (fun e => e.url == c.parent) ∧
      (∃ entry, snapshots.find? (fun e => e.url == c.parent) = some entry ∧
        entry.url = c.parent) ∧
      ((snapshots.map Snapshot.url).Nodup →
        snapshots.countP (fun e => e.url == c.parent) = 1) := by
  obtain ⟨hostnames, hmap, hds⟩ := domains_shape tldextract whitelist tlds ds hd
  have hurls := whitelistContent_urls request tldextract whitelist snapshots hs
  have hsame : snapshots.map Snapshot.url = hostnames :=
    map_ok_injective _ _ (hurls.symm.trans hmap)
  rw [mem_objects, hds, mem_flatten_permute] at hc
  obtain ⟨h, hh, t, _, hct⟩ := hc
  have hpar : c.parent = h := by
    have := JsVal.obj.inj hct
    rw [this]
  have hmem : c.parent ∈ snapshots.map Snapshot.url := by
    rw [hsame, hpar]
    exact hh
  rw [← hsame, List.mem_map] at hh
  obtain ⟨e, he, heu⟩ := hh
  have hp : (fun e : Snapshot => e.url == c.parent) e = true := by
    simp [heu, hpar]
  have hcount : snapshots.countP (fun e => e.url == c.parent)
      = (snapshots.map Snapshot.url).count c.parent := by
    rw [List.count_eq_countP, List.countP_map]
    rfl
  refine ⟨List.countP_pos_iff.2 ⟨e, he, hp⟩, ?_, ?_⟩
  · cases hfind : snapshots.find? (fun e => e.url == c.parent) with
    | none =>
      rw [List.find?_eq_none] at hfind
      exact absurd hp (hfind e he)
    | some entry =>
      have := List.find?_some hfind
      exact ⟨entry, rfl, by simpa using this⟩
  · intro hnodup
    rw [hcount]
    exact List.count_eq_one_of_mem hnodup hmem

/-- Witness of C7: two whitelist entries with different labels, two TLDs; the
parent of `example.net` matches one snapshot and only one. -/
theorem parent_resolves_witness :
    [Snapshot.mk "example" (some "Buy crypto now"),
        Snapshot.mk "sample" (some "Buy crypto now")].countP
        (fun e => e.url == (Candidate.mk "example.net" "example").parent) = 1 :=
  (parent_resolves (fun _ => HttpReply.mk none (some "Buy crypto now"))
    (fun url => if url = "example.com" then Except.ok (TldParts.mk "" "example" "com")
      else Except.ok (TldParts.mk "" "sample" "org"))
    ["example.com", "sample.org"] ["com", "net"]
    [Snapshot.mk "example" (some "Buy crypto now"), Snapshot.mk "sample" (some "Buy crypto now")]
    [permute ["com", "net"] "example", permute ["com", "net"] "sample"] rfl rfl
    (Candidate.mk "example.net" "example") (by decide)).2.2 (by decide)

/-- Counterexample to C7 as stated: two whitelist entries with the same
registrable label give two snapshots with the same url (and different
contents), so the parent of the generated candidate matches two entries. -/
theorem parent_not_unique :
    whitelistContent
        (fun u => if u = "http://example.com" then HttpReply.mk none (some "Buy crypto now")
          else if u = "http://example.org" then HttpReply.mk none (some "Example Domain")
          else HttpReply.mk (some "ENOTFOUND") none)
        (fun url => if url = "example.com" then Except.ok (TldParts.mk "" "example" "com")
          else if url = "example.org" then Except.ok (TldParts.mk "" "example" "org")
          else Except.error "invalid")
        ["example.com", "example.org"]
      = Except.ok [Snapshot.mk "example" (some "Buy crypto now"),
          Snapshot.mk "example" (some "Example Domain")] ∧
    domains
        (fun url => if url = "example.com" then Except.ok (TldParts.mk "" "example" "com")
          else if url = "example.org" then Except.ok (TldParts.mk "" "example" "org")
          else Except.error "invalid")
        ["example.com", "example.org"] ["net"]
      = Except.ok [permute ["net"] "example", permute ["net"] "example"] ∧
    Candidate.mk "example.net" "example" ∈
      objects (flatten [permute ["net"] "example", permute ["net"] "example"]) ∧
    [Snapshot.mk "example" (some "Buy crypto now"),
      Snapshot.mk "example" (some "Example Domain")].countP
        (fun e => e.url == (Candidate.mk "example.net" "example").parent) = 2 := by
  refine ⟨rfl, rfl, by decide, by decide⟩

/-- The script stops before classification exactly when `tldextract` fails on
a whitelist entry. -/
theorem run_error_iff (cfg : Config) (compareTwoStrings : Option String → Option String → Except String ℚ)
    (request : String → HttpReply) (tldextract : String → Except String TldParts)
    (random : Nat → ℚ) (tlds blacklist whitelist : List String) :
    (∃ err, run cfg compareTwoStrings request tldextract random tlds blacklist whitelist
        = Except.error err) ↔
      ∃ entry ∈ whitelist, ∃ err, tldextract entry = Except.error err := by
  rw [← whitelistContent_error_iff request]
  unfold run
  cases hw : whitelistContent request tldextract whitelist with
  | error err => simp
  | ok snapshots =>
    cases hd : domains tldextract whitelist tlds with
    | error err =>
      have h1 := (domains_error_iff tldextract whitelist tlds).1 ⟨err, hd⟩
      have h2 := (whitelistContent_error_iff request tldextract whitelist).2 h1
      rw [hw] at h2
      obtain ⟨e, he⟩ := h2
      cases he
    | ok ds => simp

/-- C8 (amended). When `tldextract` fails on some whitelist entry, the snapshot
phase rejects, the candidate phase rejects, and the script stops without a
console: no snapshot and no candidate is produced, for that entry or any
other. -/
theorem extraction_failure_rejects (cfg : Config) (compareTwoStrings : Option String → Option String → Except String ℚ)
    (request : String → HttpReply) (tldextract : String → Except String TldParts)
    (random : Nat → ℚ) (tlds blacklist whitelist : List String)
    (entry : String) (hmem : entry ∈ whitelist) (err : String)
    (hfail : tldextract entry = Except.error err) :
    (∃ e, whitelistContent request tldextract whitelist = Except.error e) ∧
    (∃ e, domains tldextract whitelist tlds = Except.error e) ∧
    (∃ e, run cfg compareTwoStrings request tldextract random tlds blacklist whitelist
        = Except.error e) :=
  ⟨(whitelistContent_error_iff request tldextract whitelist).2 ⟨entry, hmem, err, hfail⟩,
   (domains_error_iff tldextract whitelist tlds).2 ⟨entry, hmem, err, hfail⟩,
   (run_error_iff cfg compareTwoStrings request tldextract random tlds blacklist whitelist).2
     ⟨entry, hmem, err, hfail⟩⟩

/-- Witness of C8: a whitelist whose second entry cannot be parsed. -/
theorem extraction_failure_rejects_witness :
    (∃ e, whitelistContent (fun _ => HttpReply.mk none (some "Buy crypto now"))
      (fun url => if url = "example.com" then Except.ok (TldParts.mk "" "example" "com")
        else Except.error "invalid")
      ["example.com", "not a url"] = Except.error e) ∧
    (∃ e, domains
      (fun url => if url = "example.com" then Except.ok (TldParts.mk "" "example" "com")
        else Except.error "invalid")
      ["example.com", "not a url"] ["net"] = Except.error e) ∧
    (∃ e, run (Config.mk 0 1 (4 / 5)) (fun _ _ => Except.ok 1)
      (fun _ => HttpReply.mk none (some "Buy crypto now"))
      (fun url => if url = "example.com" then Except.ok (TldParts.mk "" "example" "com")
        else Except.error "invalid")
      (fun _ => 0) ["net"] [] ["example.com", "not a url"] = Except.error e) :=
  extraction_failure_rejects (Config.mk 0 1 (4 / 5)) (fun _ _ => Except.ok 1)
    (fun _ => HttpReply.mk none (some "Buy crypto now"))
    (fun url => if url = "example.com" then Except.ok (TldParts.mk "" "example" "com")
      else Except.error "invalid")
    (fun _ => 0) ["net"] [] ["example.com", "not a url"] "not a url" (by decide) "invalid"
    rfl

/-- Counterexample to C8 as stated: with one good and one unparsable entry the
script rejects; the good entry alone would have given a snapshot and one
classified candidate. -/
theorem extraction_failure_aborts_run :
    run (Config.mk 0 1 0) (fun _ _ => Except.ok 1)
        (fun _ => HttpReply.mk none (some "Buy crypto now"))
        (fun url => if url = "example.com" then Except.ok (TldParts.mk "" "example" "com")
          else Except.error "invalid")
        (fun _ => 0) ["net"] [] ["example.com", "not a url"] = Except.error "invalid" ∧
    whitelistContent (fun _ => HttpReply.mk none (some "Buy crypto now"))
        (fun url => if url = "example.com" then Except.ok (TldParts.mk "" "example" "com")
          else Except.error "invalid")
        ["example.com", "not a url"] = Except.error "invalid" ∧
    run (Config.mk 0 1 0) (fun _ _ => Except.ok 1)
        (fun _ => HttpReply.mk none (some "Buy crypto now"))
        (fun url => if url = "example.com" then Except.ok (TldParts.mk "" "example" "com")
          else Except.error "invalid")
        (fun _ => 0) ["net"] [] ["example.com"]
      = Except.ok (Console.mk [Verdict.mk "example.net" 1] 1 1) := by
  exact ⟨rfl, rfl, rfl⟩

/-! ## Progress accounting -/

/-- A callback that returns has advanced the bar by one and kept its total. -/
theorem classify_ok_value (cfg : Config) (compareTwoStrings : Option String → Option String → Except String ℚ)
    (request : String → HttpReply) (blacklist whitelist : List String)
    (snapshots : List Snapshot) (out out2 : Console) (c : Candidate)
    (h : classify cfg compareTwoStrings request blacklist whitelist snapshots out c
      = Except.ok out2) :
    out2.value = out.value + 1 ∧ out2.total = out.total := by
  unfold classify at h
  simp only at h
  split_ifs at h with h1
  · cases hfind : snapshots.find? (fun entry => entry.url == c.parent) with
    | none => rw [hfind] at h; cases h
    | some entry =>
      rw [hfind] at h
      simp only at h
      cases hscore : compareTwoStrings entry.content (fetch request c.url) with
      | error err => rw [hscore] at h; cases h
      | ok score =>
        rw [hscore] at h
        simp only at h
        split_ifs at h <;> cases h <;> simp [increment, report]
  · cases h
    simp [increment]

/-- C9 (failing input). The whitelist entry `example.com` cannot be fetched, so
its snapshot holds `false`; the candidate `example.net` answers and is in
neither list; `compareTwoStrings` raises on a first argument that is not a
string, as a function that starts with `first.replace(...)` does.  The callback
throws before `bar.increment()`, and the script ends with the bar at 0 of 1,
for every configuration and sequence of draws. -/
theorem progress_lost_on_absent_base (cfg : Config) (random : Nat → ℚ) :
    classify cfg
        (fun first _ => match first with
          | none => Except.error "TypeError: first.replace is not a function"
          | some _ => Except.ok 1)
        (fun u => if u = "http://example.net" then HttpReply.mk none (some "Buy crypto now")
          else HttpReply.mk (some "ENOTFOUND") none)
        [] ["example.com"] [Snapshot.mk "example" none] (Console.mk [] 1 0)
        (Candidate.mk "example.net" "example")
      = Except.error "TypeError: first.replace is not a function" ∧
    run cfg
        (fun first _ => match first with
          | none => Except.error "TypeError: first.replace is not a function"
          | some _ => Except.ok 1)
        (fun u => if u = "http://example.net" then HttpReply.mk none (some "Buy crypto now")
          else HttpReply.mk (some "ENOTFOUND") none)
        (fun _ => Except.ok (TldParts.mk "" "example" "com"))
        random ["net"] [] ["example.com"]
      = Except.ok (Console.mk [] 1 0) :=
  ⟨rfl, rfl⟩

/-! ## Requests in flight -/

/-- Every whitelist entry has its request in flight when `map` returns. -/
theorem length_whitelistIssued (whitelist : List String) :
    (whitelistIssued whitelist).length = whitelist.length := by
  have h : ∀ (l : List String) (net : InFlight),
      (l.foldl rawFetchIssue net).length = net.length + l.length := by
    intro l
    induction l with
    | nil => simp
    | cons e rest ih =>
      intro net
      simp only [List.foldl, ih, rawFetchIssue, List.length_append, List.length_cons,
        List.length_nil]
      omega
  simpa [whitelistIssued] using h whitelist []

/-- C5 (failing input). With `maxConcurrent = 1` and a whitelist of two
entries, both snapshot requests are in flight at once: they are issued by
`rawFetch`, which does not pass through the limiter. -/
theorem whitelist_probes_exceed_limit :
    whitelistIssued ["example.com", "example.org"]
      = ["http://example.com", "http://example.org"] ∧
    ¬ (whitelistIssued ["example.com", "example.org"]).length
        ≤ (Config.mk 0 1 (4 / 5)).maxConcurrent := by
  constructor
  · decide
  · rw [length_whitelistIssued]
    decide

/-! ## The TLD list -/

/-- Lowercasing a character leaves it alone or gives a letter `a` to `z`. -/
theorem toLower_cases (c : Char) :
    c.toLower = c ∨ ∃ n, 97 ≤ n ∧ n ≤ 122 ∧ c.toLower = Char.ofNat n := by
  unfold Char.toLower
  simp only
  split_ifs with h
  · exact Or.inr ⟨c.toNat + 32, by omega, by omega, rfl⟩
  · exact Or.inl rfl

/-- The letters `a` to `z` are fixed by lowercasing and differ from `#`. -/
theorem toLower_ofNat_lower (n : Nat) (h1 : 97 ≤ n) (h2 : n ≤ 122) :
    (Char.ofNat n).toLower = Char.ofNat n ∧ Char.ofNat n ≠ '#' := by
  interval_cases n <;> exact ⟨by decide, by decide⟩

/-- Lowercasing a character twice is lowercasing it once. -/
theorem toLower_toLower (c : Char) : c.toLower.toLower = c.toLower := by
  rcases toLower_cases c with h | ⟨n, h1, h2, h⟩
  · rw [h, h]
  · rw [h]; exact (toLower_ofNat_lower n h1 h2).1

/-- Lowercasing does not produce a `#`. -/
theorem toLower_ne_hash (c : Char) (h : c ≠ '#') : c.toLower ≠ '#' := by
  rcases toLower_cases c with h2 | ⟨n, h1, h2, h3⟩
  · rw [h2]; exact h
  · rw [h3]; exact (toLower_ofNat_lower n h1 h2).2

/-- Lowercasing an ASCII character gives an ASCII character. -/
theorem toLower_lt (c : Char) (h : c.toNat < 128) : c.toLower.toNat < 128 := by
  rcases toLower_cases c with h2 | ⟨n, h1, h2, h3⟩
  · rw [h2]; exact h
  · rw [h3]
    interval_cases n <;> decide

/-- The characters of a piece of a split are characters of what was split. -/
theorem mem_of_mem_splitChars (sep : Char) (cs : List Char) :
    ∀ piece ∈ splitChars sep cs, ∀ c ∈ piece, c ∈ cs := by
  induction cs with
  | nil =>
    intro piece hp c hc
    simp only [splitChars, List.mem_singleton] at hp
    subst hp
    exact hc
  | cons d rest ih =>
    intro piece hp c hc
    unfold splitChars at hp
    split_ifs at hp with hsep
    · rcases List.mem_cons.1 hp with h | h
      · subst h
        cases hc
      · exact List.mem_cons_of_mem d (ih piece h c hc)
    · cases hsp : splitChars sep rest with
      | nil =>
        rw [hsp] at hp
        simp only [List.mem_singleton] at hp
        subst hp
        rw [List.mem_singleton] at hc
        subst hc
        exact List.mem_cons_self _ _
      | cons first others =>
        rw [hsp] at hp ih
        simp only at hp
        rcases List.mem_cons.1 hp with h | h
        · subst h
          rcases List.mem_cons.1 hc with h2 | h2
          · subst h2
            exact List.mem_cons_self _ _
          · exact List.mem_cons_of_mem d (ih first (List.mem_cons_self _ _) c h2)
        · exact List.mem_cons_of_mem d (ih piece (List.mem_cons_of_mem _ h) c hc)

/-- The lines of an ASCII body are ASCII. -/
theorem isAscii_of_mem_split (body : String) (sep : Char) (h : isAscii body = true) :
    ∀ line ∈ split body sep, isAscii line = true := by
  intro line hline
  simp only [split, List.mem_map] at hline
  obtain ⟨piece, hpiece, rfl⟩ := hline
  simp only [isAscii, List.all_eq_true, decide_eq_true_eq] at h ⊢
  intro c hc
  exact h c (mem_of_mem_splitChars sep body.data piece hpiece c hc)

/-- On an ASCII string `toLowerCase` is the map of the letters `A` to `Z`, and
its result is ASCII. -/
theorem toLowerCase_ascii (unicodeLower : String → String) (s : String)
    (h : isAscii s = true) :
    toLowerCase unicodeLower s = String.mk (s.data.map Char.toLower) ∧
      isAscii (toLowerCase unicodeLower s) = true := by
  have h1 : toLowerCase unicodeLower s = String.mk (s.data.map Char.toLower) := by
    simp [toLowerCase, h]
  refine ⟨h1, ?_⟩
  rw [h1]
  simp only [isAscii, List.all_eq_true, decide_eq_true_eq, List.mem_map] at h ⊢
  rintro c ⟨d, hd, rfl⟩
  exact toLower_lt d (h d hd)

/-- Lowercasing an ASCII string twice is lowercasing it once. -/
theorem toLowerCase_idem (unicodeLower : String → String) (s : String)
    (h : isAscii s = true) :
    toLowerCase unicodeLower (toLowerCase unicodeLower s) = toLowerCase unicodeLower s := by
  obtain ⟨h1, h2⟩ := toLowerCase_ascii unicodeLower s h
  rw [(toLowerCase_ascii unicodeLower _ h2).1, h1]
  simp [List.map_map, Function.comp_def, toLower_toLower]

/-- An ASCII line that is not a comment is not one after lowercasing. -/
theorem startsWith_toLowerCase (unicodeLower : String → String) (s : String)
    (hs : isAscii s = true) (h : startsWith s '#' = false) :
    startsWith (toLowerCase unicodeLower s) '#' = false := by
  rw [(toLowerCase_ascii unicodeLower s hs).1]
  unfold startsWith at *
  cases hd : s.data with
  | nil => simp
  | cons d rest =>
    rw [hd] at h
    simp only [List.map_cons, beq_eq_false_iff_ne, ne_eq] at h ⊢
    exact toLower_ne_hash d h

/-- C10 (amended). For a reply without error whose body is not empty and is
ASCII text, the loader resolves with the lowercased lines of the body that do
not begin with `#`, in order; no entry of the result begins with `#` and every
entry equals its own lowercase form. -/
theorem tld_list_clean (unicodeLower : String → String) (reply : HttpReply) (body : String)
    (herr : reply.err = none) (hbody : reply.body = some body) (hne : body ≠ "")
    (hascii : isAscii body = true) :
    getTLDs unicodeLower reply = Loaded.resolved
        (((split body (Char.ofNat 10)).filter (fun tld => !startsWith tld '#')).map
          (fun tld => toLowerCase unicodeLower tld)) ∧
    ∀ tld ∈ ((split body (Char.ofNat 10)).filter (fun tld => !startsWith tld '#')).map
        (fun tld => toLowerCase unicodeLower tld),
      startsWith tld '#' = false ∧ toLowerCase unicodeLower tld = tld := by
  constructor
  · simp [getTLDs, herr, hbody, truthy, hne]
  · intro tld htld
    simp only [List.mem_map, List.mem_filter, Bool.not_eq_true'] at htld
    obtain ⟨line, ⟨hmem, hline⟩, rfl⟩ := htld
    have hl := isAscii_of_mem_split body (Char.ofNat 10) hascii line hmem
    exact ⟨startsWith_toLowerCase unicodeLower line hl hline,
      toLowerCase_idem unicodeLower line hl⟩

/-- Witness of C10: a list with a comment line and two TLDs, without a final
newline. -/
theorem tld_list_clean_witness :
    getTLDs (fun s => s) (HttpReply.mk none (some "# Version 1\nCOM\nNET")) = Loaded.resolved
        (((split "# Version 1\nCOM\nNET" (Char.ofNat 10)).filter
          (fun tld => !startsWith tld '#')).map (fun tld => toLowerCase (fun s => s) tld)) ∧
    ∀ tld ∈ ((split "# Version 1\nCOM\nNET" (Char.ofNat 10)).filter
        (fun tld => !startsWith tld '#')).map (fun tld => toLowerCase (fun s => s) tld),
      startsWith tld '#' = false ∧ toLowerCase (fun s => s) tld = tld :=
  tld_list_clean (fun s => s) (HttpReply.mk none (some "# Version 1\nCOM\nNET"))
    "# Version 1\nCOM\nNET" rfl rfl (by decide) (by decide)

/-- Counterexample to C10 as stated: a body that ends with a newline, as the
published list does, gives a list whose last entry is the empty string.  The
body is ASCII, so the result does not depend on the Unicode conversion. -/
theorem tld_list_keeps_blank :
    getTLDs (fun s => s) (HttpReply.mk none (some "# Version 1\nCOM\nNET\n"))
      = Loaded.resolved ["com", "net", ""] ∧
    "" ∈ ["com", "net", ""] := by
  constructor
  · decide
  · decide

end Radar
